import Mathlib

/-!
Shallow embedding of the core algorithms of `nutils/log.py` together with
proofs about them.  Each definition mirrors one function or method of the
source file; the comment above a definition names the Python symbol it
embeds.  Python lists are embedded as `List`, the in-place mutations of the
source become explicit state passing, machine-level concerns (actual file
descriptors, wall-clock throttling) are represented by the data they
produce.
-/

namespace NutilsLog

/-- Embeds the module constant `LEVELS = 'error', 'warning', 'user', 'info', 'debug'`. -/
def LEVELS : List String := ["error", "warning", "user", "info", "debug"]

/-- Embeds the Python truthiness test applied to `parallel.procid`, which is
either `None` (primary process) or an integer rank.  `None` and `0` are
falsy; any nonzero integer is truthy. -/
def truthy : Option Nat → Bool
  | none => false
  | some n => n != 0

/-- The operations a caller can perform against a context-tracking log:
entering a context scope (`Log.context` entry, i.e. `_push_context`),
leaving it (`_pop_context`), and writing a levelled message (`write`). -/
inductive Op where
  | push (title : String)
  | pop
  | write (level text : String)
deriving DecidableEq

/-- The rendered events a tree-style sink produces: `_print_push_context`,
`_print_pop_context` and `_print_item` calls, in order. -/
inductive Event where
  | pushE (title : String)
  | popE
  | itemE (level text : String)
deriving DecidableEq

/-- State of `ContextTreeLog`: the field `context` embeds `self._context`
(inner-most context last, as in the Python list) and `printed` embeds
`self._printed_context`. -/
structure TreeState where
  context : List String
  printed : Nat
deriving DecidableEq

/-- Initial state of a freshly constructed `ContextTreeLog`:
`self._context = []`, `self._printed_context = 0`. -/
def initTree : TreeState := ⟨[], 0⟩

/-- One step of the `ContextTreeLog` machine, returning the successor state
and the rendered events emitted during the step.

* `push`: `ContextLog._push_context` appends the title to `self._context`
  and emits nothing.
* `pop`: `ContextTreeLog._pop_context` pops `self._context`; then, if
  `self._printed_context > len(self._context)`, it decrements
  `self._printed_context` and calls `_print_pop_context`.
* `write`: `ContextTreeLog.write` returns immediately when
  `parallel.procid` is truthy; otherwise it calls `_print_push_context` for
  every entry of `self._context[self._printed_context:]`, advancing
  `self._printed_context` to `len(self._context)`, then calls
  `_print_item`. -/
def treeStep (procid : Option Nat) (s : TreeState) : Op → TreeState × List Event
  | .push t => ({ s with context := s.context ++ [t] }, [])
  | .pop =>
      let ctx := s.context.dropLast
      if s.printed > ctx.length then
        ({ context := ctx, printed := s.printed - 1 }, [.popE])
      else
        ({ s with context := ctx }, [])
  | .write lvl txt =>
      if truthy procid then (s, [])
      else
        ({ s with printed := s.context.length },
         (s.context.drop s.printed).map .pushE ++ [.itemE lvl txt])

/-- Runs a list of operations through `treeStep`, concatenating the emitted
events. -/
def treeRun (procid : Option Nat) : List Op → TreeState → TreeState × List Event
  | [], s => (s, [])
  | op :: ops, s =>
      let r := treeStep procid s op
      let rest := treeRun procid ops r.1
      (rest.1, r.2 ++ rest.2)

/-- The events a fresh tree-style sink renders for a list of operations on
the primary process. -/
def treeEvents (ops : List Op) : List Event := (treeRun none ops initTree).2

/-- The buffered messages of `RecordLog`: each entry of `self._messages` is
a tuple whose head is the command name `entercontext`, `exitcontext` or
`write`.  (The `open` command is never reached, see `RecordLog_open`.) -/
inductive Msg where
  | enterctx (title : String)
  | exitctx
  | writeMsg (level text : String)
deriving DecidableEq

/-- State of `RecordLog`: `contexts` embeds `self._contexts`, `appended`
embeds `self._appended_contexts`, `messages` embeds `self._messages`. -/
structure RecState where
  contexts : List String
  appended : Nat
  messages : List Msg
deriving DecidableEq

/-- Initial state of `RecordLog.__init__`. -/
def initRec : RecState := ⟨[], 0, []⟩

/-- One step of the `RecordLog` buffering machine (the pass-through to
`self._old_log` is the identity on this state and is not shown here).

* `push`: `RecordLog.context` on entry appends the title to
  `self._contexts` and buffers nothing.
* `pop`: on exit it pops `self._contexts`; if `self._appended_contexts >
  len(self._contexts)` it decrements the counter and appends an
  `exitcontext` message.
* `write`: `RecordLog.write` buffers only when `parallel.procid` is falsy:
  it appends an `entercontext` message for every entry of
  `self._contexts[self._appended_contexts:]`, sets
  `self._appended_contexts = len(self._contexts)` and appends the `write`
  message. -/
def recStep (procid : Option Nat) (s : RecState) : Op → RecState
  | .push t => { s with contexts := s.contexts ++ [t] }
  | .pop =>
      let ctxs := s.contexts.dropLast
      if s.appended > ctxs.length then
        { contexts := ctxs, appended := s.appended - 1,
          messages := s.messages ++ [.exitctx] }
      else
        { s with contexts := ctxs }
  | .write lvl txt =>
      if truthy procid then s
      else
        { contexts := s.contexts, appended := s.contexts.length,
          messages := s.messages ++ (s.contexts.drop s.appended).map .enterctx
            ++ [.writeMsg lvl txt] }

/-- Runs a list of operations through `recStep`. -/
def recRun (procid : Option Nat) : List Op → RecState → RecState
  | [], s => s
  | op :: ops, s => recRun procid ops (recStep procid s op)

/-- Embeds `RecordLog.replay`: each buffered message is dispatched against
the currently active log, `entercontext` entering a context (a push),
`exitcontext` leaving the innermost replayed context (a pop), and `write`
writing. -/
def replayOps : List Msg → List Op
  | [] => []
  | .enterctx t :: ms => .push t :: replayOps ms
  | .exitctx :: ms => .pop :: replayOps ms
  | .writeMsg l t :: ms => .write l t :: replayOps ms

/-- Claim C1: on a tree-style sink, pushing a context and popping it with no
intervening write emits zero rendered events, and pushing three nested
contexts followed by a single write inside the innermost emits exactly the
three push events in stack order before the item, and exactly three pop
events when the three scopes exit. -/
theorem lazy_flush_correct (t a b c lvl txt : String) :
    treeEvents [.push t, .pop] = []
    ∧ treeEvents [.push a, .push b, .push c, .write lvl txt]
        = [.pushE a, .pushE b, .pushE c, .itemE lvl txt]
    ∧ treeEvents [.push a, .push b, .push c, .write lvl txt, .pop, .pop, .pop]
        = [.pushE a, .pushE b, .pushE c, .itemE lvl txt, .popE, .popE, .popE] := by
  refine ⟨rfl, rfl, rfl⟩

/-- The session of claim C2: push "A", write info "x", push "B" with no
write underneath, pop, pop. -/
def sessionOps : List Op := [.push "A", .write "info" "x", .push "B", .pop, .pop]

/-- Claim C2: recording the session push "A", write info "x", push "B" (no
write), pop, pop through a `RecordLog` and replaying the buffer against a
fresh tree-style sink produces exactly the same rendered event sequence as
running the original operations directly on such a sink: one push and one
pop for "A", the item in between, and no events for "B". -/
theorem record_replay_fidelity :
    treeEvents (replayOps (recRun none sessionOps initRec).messages)
      = treeEvents sessionOps
    ∧ treeEvents sessionOps = [.pushE "A", .itemE "info" "x", .popE] :=
  ⟨rfl, rfl⟩

/-- Preservation of `printed ≤ len(context)` by one `ContextTreeLog` step. -/
lemma treeStep_inv (procid : Option Nat) (s : TreeState) (op : Op)
    (h : s.printed ≤ s.context.length) :
    (treeStep procid s op).1.printed ≤ (treeStep procid s op).1.context.length := by
  cases op with
  | push t => simpa [treeStep] using Nat.le_succ_of_le h
  | pop =>
      simp only [treeStep, List.length_dropLast]
      split <;> simp <;> omega
  | write lvl txt =>
      simp only [treeStep]
      split
      · exact h
      · simp

/-- Preservation of `printed ≤ len(context)` by a run of `ContextTreeLog`. -/
lemma treeRun_inv (procid : Option Nat) :
    ∀ (ops : List Op) (s : TreeState), s.printed ≤ s.context.length →
      (treeRun procid ops s).1.printed ≤ (treeRun procid ops s).1.context.length := by
  intro ops
  induction ops with
  | nil => intro s h; exact h
  | cons op ops ih =>
      intro s h
      exact ih _ (treeStep_inv procid s op h)

/-- Under the invariant, a pop emits exactly one pop event when the popped
entry had been rendered (the printed marker covers the whole stack) and
none otherwise. -/
lemma treeStep_pop_events (procid : Option Nat) (s : TreeState)
    (h : s.printed ≤ s.context.length) :
    (treeStep procid s .pop).2
      = if s.context.length ≤ s.printed ∧ s.context ≠ [] then [.popE] else [] := by
  cases hctx : s.context with
  | nil =>
      have hp : s.printed = 0 := by rw [hctx] at h; simpa using h
      simp [treeStep, hctx, hp]
  | cons a l =>
      simp only [treeStep, hctx, List.length_dropLast, List.length_cons, ne_eq]
      split <;> split <;> first
        | rfl
        | (simp_all; omega)

/-- Preservation of `appended ≤ len(contexts)` by one `RecordLog` step. -/
lemma recStep_inv (procid : Option Nat) (s : RecState) (op : Op)
    (h : s.appended ≤ s.contexts.length) :
    (recStep procid s op).appended ≤ (recStep procid s op).contexts.length := by
  cases op with
  | push t => simpa [recStep] using Nat.le_succ_of_le h
  | pop =>
      simp only [recStep, List.length_dropLast]
      split <;> simp <;> omega
  | write lvl txt =>
      simp only [recStep]
      split
      · exact h
      · simp

/-- Preservation of `appended ≤ len(contexts)` by a run of `RecordLog`. -/
lemma recRun_inv (procid : Option Nat) :
    ∀ (ops : List Op) (s : RecState), s.appended ≤ s.contexts.length →
      (recRun procid ops s).appended ≤ (recRun procid ops s).contexts.length := by
  intro ops
  induction ops with
  | nil => intro s h; exact h
  | cons op ops ih =>
      intro s h
      exact ih _ (recStep_inv procid s op h)

/-- Claim C3: for every sequence of push, pop and write operations on a
tree-style sink the printed-prefix counter never exceeds the length of the
context stack; a pop from the reached state emits exactly one rendered pop
event when the popped entry had been rendered and none otherwise; and the
`RecordLog` appended-contexts counter obeys the same invariant with respect
to its context list. -/
theorem context_stack_invariants (ops : List Op) :
    ((treeRun none ops initTree).1.printed
        ≤ (treeRun none ops initTree).1.context.length)
    ∧ ((treeStep none (treeRun none ops initTree).1 .pop).2
        = if (treeRun none ops initTree).1.context.length
              ≤ (treeRun none ops initTree).1.printed
            ∧ (treeRun none ops initTree).1.context ≠ [] then [.popE] else [])
    ∧ (recRun none ops initRec).appended ≤ (recRun none ops initRec).contexts.length := by
  have h1 := treeRun_inv none ops initTree (by simp [initTree])
  exact ⟨h1, treeStep_pop_events none _ h1,
    recRun_inv none ops initRec (by simp [initRec])⟩

/-- The process-wide registry state: `current` embeds the module variable
`_current_log` (`none` embeds Python `None`), and `attrs s` embeds the
per-instance attribute `_old_log` of sink `s` (`none` when the attribute is
absent, `some v` when it holds the saved pointer `v`).  Sinks are
identified by natural numbers. -/
structure World where
  current : Option Nat
  attrs : Nat → Option (Option Nat)

/-- Embeds `Log.__enter__`: if the instance already has an `_old_log`
attribute a `RuntimeError` is raised (first component `some` message) and,
since the raise happens before any mutation, the state is returned
unchanged; otherwise the current log is saved into the instance attribute
and the instance becomes the current log. -/
def Log_enter (s : Nat) (w : World) : Option String × World :=
  match w.attrs s with
  | some _ => (some "This context manager is not reentrant.", w)
  | none =>
      (none,
       { current := some s,
         attrs := fun t => if t = s then some w.current else w.attrs t })

/-- The three kinds of exit of a `with` block as discriminated by
`Log.__exit__`: no exception, a fatal interrupt (`KeyboardInterrupt`,
`SystemExit` or `bdb.BdbQuit`), or any other exception type. -/
inductive ExitKind where
  | normal
  | interrupt
  | otherExc
deriving DecidableEq

/-- The observable write actions `Log.__exit__` can perform: a levelled
`write` call, or a call to `write_post_mortem`. -/
inductive Action where
  | write (level text : String)
  | postMortem
deriving DecidableEq

/-- The state after `Log.__exit__` of sink `s` restores `_current_log` to
the saved value `old` and deletes the `_old_log` attribute. -/
def restoreWorld (s : Nat) (old : Option Nat) (w : World) : World :=
  { current := old, attrs := fun t => if t = s then none else w.attrs t }

/-- Embeds `Log.__exit__`: raises a `RuntimeError` when the `_old_log`
attribute is absent; otherwise writes a single error-level "killed by user"
message on a fatal interrupt, calls `write_post_mortem` on any other
exception and nothing on normal exit, then unconditionally restores the old
log and deletes the attribute.  The `Bool` component is whether the
exception is suppressed: `contextlib.ExitStack.__exit__` with an empty
stack returns falsy, so the exception always propagates. -/
def Log_exit (s : Nat) (k : ExitKind) (w : World) :
    Except String (List Action × Bool × World) :=
  match w.attrs s with
  | none => .error "This context manager is not yet entered."
  | some old =>
      let acts : List Action :=
        match k with
        | .interrupt => [.write "error" "killed by user"]
        | .otherExc => [.postMortem]
        | .normal => []
      .ok (acts, false, restoreWorld s old w)

/-- Claim C5: activating a sink instance that is already active fails with
a reentrancy error, and the failed activation leaves the whole registry
state, in particular the active-sink pointer, unchanged. -/
theorem reentrancy_guard (s : Nat) (w : World) (v : Option Nat)
    (h : w.attrs s = some v) :
    (Log_enter s w).1 = some "This context manager is not reentrant."
    ∧ (Log_enter s w).2 = w
    ∧ (Log_enter s w).2.current = w.current := by
  simp [Log_enter, h]

/-- Example registry state: sink 1 is active (its `_old_log` holds the
previously current sink 0) and is the current log. -/
def wEx : World :=
  { current := some 1, attrs := fun t => if t = 1 then some (some 0) else none }

/-- Witness for C5: in `wEx` sink 1 is already active, and re-activating it
fails and leaves the state unchanged. -/
theorem reentrancy_guard_witness :
    wEx.attrs 1 = some (some 0)
    ∧ ((Log_enter 1 wEx).1 = some "This context manager is not reentrant."
       ∧ (Log_enter 1 wEx).2 = wEx
       ∧ (Log_enter 1 wEx).2.current = wEx.current) :=
  ⟨rfl, reentrancy_guard 1 wEx (some 0) rfl⟩

/-- Claim C6: on release of the activation guard with an escaping fatal
interrupt, exactly one error-level "killed by user" message is written and
no post-mortem; with any other escaping exception the post-mortem writer is
invoked and the exception is not suppressed; and on every exit path
(normal, exceptional, interrupt) the previously active sink is restored as
the active sink. -/
theorem guard_release (s : Nat) (w : World) (old : Option Nat)
    (h : w.attrs s = some old) :
    Log_exit s .interrupt w
        = .ok ([.write "error" "killed by user"], false, restoreWorld s old w)
    ∧ Log_exit s .otherExc w = .ok ([.postMortem], false, restoreWorld s old w)
    ∧ Log_exit s .normal w = .ok ([], false, restoreWorld s old w)
    ∧ (restoreWorld s old w).current = old := by
  simp [Log_exit, h, restoreWorld]

/-- Witness for C6: releasing the active sink of `wEx` on each exit kind. -/
theorem guard_release_witness :
    wEx.attrs 1 = some (some 0)
    ∧ (Log_exit 1 .interrupt wEx
          = .ok ([.write "error" "killed by user"], false, restoreWorld 1 (some 0) wEx)
       ∧ Log_exit 1 .otherExc wEx
          = .ok ([.postMortem], false, restoreWorld 1 (some 0) wEx)
       ∧ Log_exit 1 .normal wEx
          = .ok ([], false, restoreWorld 1 (some 0) wEx)
       ∧ (restoreWorld 1 (some 0) wEx).current = some 0) :=
  ⟨rfl, guard_release 1 wEx (some 0) rfl⟩

/-- An operation against the registry: a scoped activation (`Log.__enter__`)
or a release (`Log.__exit__`) of sink `s` with a given exit kind. -/
inductive RegOp where
  | enter (s : Nat)
  | leave (s : Nat) (k : ExitKind)
deriving DecidableEq

/-- One registry step.  A raised `RuntimeError` leaves the registry state
unchanged (both raises happen before any mutation in the source). -/
def regStep (w : World) : RegOp → World
  | .enter s => (Log_enter s w).2
  | .leave s k =>
      match Log_exit s k w with
      | .ok r => r.2.2
      | .error _ => w

/-- Runs a list of registry operations. -/
def regRun : List RegOp → World → World
  | [], w => w
  | op :: ops, w => regRun ops (regStep w op)

/-- The registry state before module initialization: `_current_log = None`
and no sink instance carries an `_old_log` attribute. -/
def preInitWorld : World := ⟨none, fun _ => none⟩

/-- Embeds the module initialization `StdoutLog().__enter__()` of
`nutils/log.py`: sink id 0 stands for the default `StdoutLog` instance
entered at import time and never released. -/
def moduleInit : World := (Log_enter 0 preInitWorld).2

/-- Recognizes registry operations other than a release of the default sink
0 (which the module never performs: the import-time activation is never
exited). -/
def nonDefaultLeave : RegOp → Bool
  | .leave 0 _ => false
  | _ => true

/-- The registry invariant: the active-sink pointer is set, and every
non-default sink that is currently activated saved a set pointer. -/
def WInv (w : World) : Prop :=
  w.current.isSome = true
  ∧ ∀ s v, s ≠ 0 → w.attrs s = some v → v.isSome = true

/-- One registry step preserves the invariant, provided the step is not a
release of the default sink. -/
lemma regStep_WInv (w : World) (op : RegOp) (hop : nonDefaultLeave op = true)
    (h : WInv w) : WInv (regStep w op) := by
  obtain ⟨hcur, hattr⟩ := h
  cases op with
  | enter s =>
      simp only [regStep, Log_enter]
      cases hs : w.attrs s with
      | some v => exact ⟨hcur, hattr⟩
      | none =>
          refine ⟨rfl, ?_⟩
          intro t v ht hv
          simp only at hv
          by_cases hts : t = s
          · rw [if_pos hts] at hv
            cases hv
            exact hcur
          · rw [if_neg hts] at hv
            exact hattr t v ht hv
  | leave s k =>
      have hs0 : s ≠ 0 := by
        intro hs
        subst hs
        simp [nonDefaultLeave] at hop
      simp only [regStep, Log_exit]
      cases hs : w.attrs s with
      | none => exact ⟨hcur, hattr⟩
      | some old =>
          simp only [restoreWorld]
          refine ⟨hattr s old hs0 hs, ?_⟩
          intro t v ht hv
          simp only at hv
          by_cases hts : t = s
          · rw [if_pos hts] at hv
            cases hv
          · rw [if_neg hts] at hv
            exact hattr t v ht hv

/-- A run of registry steps avoiding releases of the default sink preserves
the invariant. -/
lemma regRun_WInv :
    ∀ (ops : List RegOp), ops.all nonDefaultLeave = true →
      ∀ (w : World), WInv w → WInv (regRun ops w) := by
  intro ops
  induction ops with
  | nil => intro _ w h; exact h
  | cons op ops ih =>
      intro hall w h
      simp only [List.all_cons, Bool.and_eq_true] at hall
      exact ih hall.2 _ (regStep_WInv w op hall.1 h)

/-- Claim C10: module initialization installs the default stdout sink 0 as
the active sink, and after any sequence of activations and releases that
does not release the import-time default activation, the active-sink
pointer is still set: module-level dispatch always has a sink. -/
theorem active_pointer_never_unset (ops : List RegOp)
    (h : ops.all nonDefaultLeave = true) :
    moduleInit.current = some 0
    ∧ (regRun ops moduleInit).current.isSome = true := by
  refine ⟨rfl, ?_⟩
  have hinit : WInv moduleInit := by
    constructor
    · rfl
    · intro s v hs hv
      simp only [moduleInit, Log_enter, preInitWorld] at hv
      by_cases hs0 : s = 0
      · exact absurd hs0 hs
      · rw [if_neg hs0] at hv
        cases hv
  exact (regRun_WInv ops h moduleInit hinit).1

/-- Witness for C10: entering sink 1, entering sink 2 nested, and releasing
both in LIFO order leaves the pointer set. -/
theorem active_pointer_never_unset_witness :
    ([RegOp.enter 1, RegOp.enter 2, RegOp.leave 2 .normal,
        RegOp.leave 1 .otherExc].all nonDefaultLeave = true)
    ∧ (moduleInit.current = some 0
       ∧ (regRun [RegOp.enter 1, RegOp.enter 2, RegOp.leave 2 .normal,
            RegOp.leave 1 .otherExc] moduleInit).current.isSome = true) :=
  ⟨rfl, active_pointer_never_unset _ rfl⟩

/-- Embeds `StdoutLog.write` (the plain console sink, also inherited by
`RichOutputLog`).  The result is the printed line, or `none` when nothing
is printed.  The verbosity gate prints only when `level` is not in
`LEVELS[verbose:]`.  When `parallel.procid is not None` the text is
prefixed with the bracketed rank; the line itself is
`' > '.join(self._context + [text])` as built by `StdoutLog._mkstr`. -/
def StdoutLog_write (verbose : Nat) (procid : Option Nat) (ctx : List String)
    (level text : String) : Option String :=
  if level ∈ LEVELS.drop verbose then none
  else
    some (String.intercalate " > "
      (ctx ++ [match procid with
               | some p => "[" ++ Nat.repr p ++ "] " ++ text
               | none => text]))

/-- Counterexample to claim C7 as stated: on the plain console sink with
worker rank 1 (non-primary), a write of level info at verbosity 4 does emit
output, namely the text prefixed with the bracketed rank. -/
theorem nonprimary_counterexample :
    StdoutLog_write 4 (some 1) [] "info" "x" = some "[1] x" := by
  rfl

/-- Embeds `os.path.splitext` for a plain file name (no directory
separators): split at the last dot, unless every character before that dot
is itself a dot, in which case the extension is empty. -/
def splitext (p : String) : String × String :=
  let cs := p.toList
  let di := (List.range cs.length).foldl
      (fun acc i => if cs.get? i = some '.' then some i else acc) none
  match di with
  | none => (p, "")
  | some i =>
      if (cs.take i).all (fun c => c = '.') then (p, "")
      else ((cs.take i).asString, (cs.drop i).asString)

/-- The candidate name tried by the rename loop of `_makedirs.open`:
`'-{}'.join(os.path.splitext(filename)).format(n)`, i.e. the root, a dash,
the decimal rendering of `n`, and the extension. -/
def renameCandidate (filename : String) (n : Nat) : String :=
  (splitext filename).1 ++ "-" ++ Nat.repr n ++ (splitext filename).2

/-- Embeds the `for filename in map(...): if filename not in listdir: break`
search of `_makedirs.open`, made total with explicit fuel.  The Python loop
is unbounded but terminates because the directory listing is finite; fuel
`len(listdir) + 1` always suffices since at most `len(listdir)` candidates
can collide, so the `none` case is never reached from `makedirs_open`. -/
def rename_loop (listdir : List String) (filename : String) :
    Nat → Nat → Option String
  | 0, _ => none
  | fuel + 1, n =>
      if renameCandidate filename n ∈ listdir then
        rename_loop listdir filename fuel (n + 1)
      else some (renameCandidate filename n)

/-- The handle kinds `_makedirs.open` can return: a real file opened under
the resolved name, or the discarding `_devnull` sentinel used by the skip
policy. -/
inductive OpenResult where
  | real (name : String)
  | devnull (name : String)
deriving DecidableEq

/-- Embeds `_makedirs.open`: reject modes other than text-write and
binary-write and unrecognized exists policies; for the non-overwrite
policies consult the directory listing, returning the `_devnull` sentinel
under skip and the first free dash-numbered candidate under rename when the
name is taken; otherwise open under the unchanged name. -/
def makedirs_open (listdir : List String) (filename mode ex : String) :
    Except String OpenResult :=
  if mode ≠ "w" ∧ mode ≠ "wb" then .error "invalid mode"
  else if ex ≠ "overwrite" ∧ ex ≠ "rename" ∧ ex ≠ "skip" then
    .error "invalid exists"
  else if ex ≠ "overwrite" ∧ filename ∈ listdir then
    if ex = "skip" then .ok (.devnull filename)
    else
      match rename_loop listdir filename (listdir.length + 1) 1 with
      | some f => .ok (.real f)
      | none => .error "rename search out of fuel"
  else .ok (.real filename)

/-- A successful rename search starting at `n0` returns the first free
candidate at or after `n0`: every earlier candidate from `n0` on is in the
listing. -/
lemma rename_loop_spec (listdir : List String) (filename : String) :
    ∀ (fuel n0 : Nat) (f : String),
      rename_loop listdir filename fuel n0 = some f →
      ∃ k, f = renameCandidate filename (n0 + k)
        ∧ renameCandidate filename (n0 + k) ∉ listdir
        ∧ ∀ j, j < k → renameCandidate filename (n0 + j) ∈ listdir := by
  intro fuel
  induction fuel with
  | zero => intro n0 f h; cases h
  | succ fuel ih =>
      intro n0 f h
      simp only [rename_loop] at h
      by_cases hmem : renameCandidate filename n0 ∈ listdir
      · rw [if_pos hmem] at h
        obtain ⟨k, hf, hfree, hall⟩ := ih (n0 + 1) f h
        refine ⟨k + 1, ?_, ?_, ?_⟩
        · rw [show n0 + (k + 1) = n0 + 1 + k by omega]
          exact hf
        · rw [show n0 + (k + 1) = n0 + 1 + k by omega]
          exact hfree
        · intro j hj
          cases j with
          | zero => simpa using hmem
          | succ j =>
              rw [show n0 + (j + 1) = n0 + 1 + j by omega]
              exact hall j (by omega)
      · rw [if_neg hmem] at h
        cases h
        exact ⟨0, rfl, by simpa using hmem, by intro j hj; omega⟩

/-- Claim C4: under the rename policy, `_makedirs.open` with a name already
present in the directory listing resolves to the candidate with the
smallest positive suffix not in the listing (so with `out.txt` present two
successive opens yield `out-1.txt` then `out-2.txt`), and uses the name
unchanged when it is not present. -/
theorem rename_policy (listdir : List String) (filename f : String) :
    (filename ∉ listdir →
      makedirs_open listdir filename "w" "rename" = .ok (.real filename))
    ∧ (filename ∈ listdir →
        makedirs_open listdir filename "w" "rename" = .ok (.real f) →
        ∃ n, 1 ≤ n ∧ f = renameCandidate filename n ∧ f ∉ listdir
          ∧ ∀ m, 1 ≤ m → m < n → renameCandidate filename m ∈ listdir)
    ∧ makedirs_open ["out.txt"] "out.txt" "w" "rename" = .ok (.real "out-1.txt")
    ∧ makedirs_open ["out.txt", "out-1.txt"] "out.txt" "w" "rename"
        = .ok (.real "out-2.txt") := by
  refine ⟨?_, ?_, rfl, rfl⟩
  · intro h
    simp [makedirs_open, h]
  · intro h1 h2
    simp only [makedirs_open, h1] at h2
    norm_num at h2
    cases hloop : rename_loop listdir filename (listdir.length + 1) 1 with
    | none => rw [hloop] at h2; cases h2
    | some g =>
        rw [hloop] at h2
        have hgf : g = f := by
          cases h2
          rfl
        subst hgf
        obtain ⟨k, hf, hfree, hall⟩ := rename_loop_spec listdir filename _ 1 g hloop
        refine ⟨1 + k, by omega, hf, by rw [hf]; exact hfree, ?_⟩
        intro m hm1 hmk
        rw [show m = 1 + (m - 1) by omega]
        exact hall (m - 1) (by omega)

/-- Witness for C4: with `out.txt` in the listing, the resolved name
`out-1.txt` is the candidate with the smallest free positive suffix. -/
theorem rename_policy_witness :
    ("out.txt" ∈ ["out.txt"]
      ∧ makedirs_open ["out.txt"] "out.txt" "w" "rename" = .ok (.real "out-1.txt"))
    ∧ (∃ n, 1 ≤ n ∧ "out-1.txt" = renameCandidate "out.txt" n
        ∧ "out-1.txt" ∉ ["out.txt"]
        ∧ ∀ m, 1 ≤ m → m < n → renameCandidate "out.txt" m ∈ ["out.txt"]) :=
  ⟨⟨by decide, rfl⟩,
   (rename_policy ["out.txt"] "out.txt" "out-1.txt").2.1 (by decide) rfl⟩

/-- Embeds `RecordLog.open`.  The method first appends an `entercontext`
message for every context not yet materialized and advances
`self._appended_contexts`; it then evaluates
`self._old_log.open(filename, mode, level)`, which omits the required
fourth argument of `Log.open` and therefore raises `TypeError` before any
handle is yielded.  (Were that call fixed, the final
`self._messages.append((..., data.getValue()))` would raise
`AttributeError`, because `io.BytesIO` and `io.StringIO` define `getvalue`,
not `getValue`.)  The result is the state as mutated so far plus the raised
error; no message recording the open ever reaches the buffer. -/
def RecordLog_open (st : RecState) (filename mode level ex : String) :
    RecState × Option String :=
  let st1 : RecState :=
    { st with
      messages := st.messages ++ (st.contexts.drop st.appended).map .enterctx,
      appended := st.contexts.length }
  (st1, some "TypeError: open missing 1 required positional argument")

/-- Claim C8 (code defect): for every `RecordLog` state and every argument
list, `open` does materialize all pending un-rendered contexts into the
message buffer first, but then raises instead of yielding a handle, so the
buffer gains only the `entercontext` entries and never an open message with
captured bytes (there is no open message constructor to gain: the append
that would create one is unreachable behind the raise). -/
theorem record_open_defect (st : RecState) (filename mode level ex : String) :
    (RecordLog_open st filename mode level ex).2
        = some "TypeError: open missing 1 required positional argument"
    ∧ (RecordLog_open st filename mode level ex).1.messages
        = st.messages ++ (st.contexts.drop st.appended).map .enterctx
    ∧ (RecordLog_open st filename mode level ex).1.appended = st.contexts.length
    ∧ (RecordLog_open st filename mode level ex).1.contexts = st.contexts
    ∧ RecordLog_open ⟨["A"], 0, []⟩ "out.txt" "w" "info" "rename"
        = (⟨["A"], 1, [.enterctx "A"]⟩,
           some "TypeError: open missing 1 required positional argument") :=
  ⟨rfl, rfl, rfl, rfl, rfl⟩

/-- Embeds `html.escape` (with quoting) character by character: the
sequential replacements of the original, ampersand first, coincide with
this single pass. -/
def escapeChar (c : Char) : String :=
  if c = '&' then "&amp;"
  else if c = '<' then "&lt;"
  else if c = '>' then "&gt;"
  else if c = Char.ofNat 34 then "&quot;"
  else if c = Char.ofNat 39 then "&#x27;"
  else String.singleton c

/-- Embeds `html.escape` on a whole string. -/
def htmlEscape (s : String) : String :=
  String.join (s.toList.map escapeChar)

/-- Splits a character list on newline characters, keeping empty groups. -/
def splitCharsOnNl : List Char → List (List Char)
  | [] => [[]]
  | c :: cs =>
      let r := splitCharsOnNl cs
      if c = Char.ofNat 10 then [] :: r
      else
        match r with
        | [] => [[c]]
        | h :: t => (c :: h) :: t

/-- Embeds `str.splitlines` for newline-separated text (the only line
boundary this module produces): the empty string yields no lines and a
trailing newline does not produce a final empty line. -/
def splitlines (s : String) : List String :=
  let cs := s.toList
  if cs = [] then []
  else
    let groups := (splitCharsOnNl cs).map List.asString
    if cs.getLast? = some (Char.ofNat 10) then groups.dropLast else groups

/-- The single JSON object `IndentLog._print_progress` serializes into
`progress.json`: `dict(logpos=self._logfile.tell(), context=self._context,
text=text, level=level)`, where `text` and `level` may be `None`. -/
structure ProgressEntry where
  logpos : Nat
  context : List String
  text : Option String
  level : Option String
deriving DecidableEq

/-- State of `IndentLog`: `pfx` embeds `self._prefix` (the indentation
string), `context` and `printed` embed the inherited `ContextTreeLog`
fields, `logfile` the contents of the growing `log.html`, and
`progressfile` the parsed contents of `progress.json` (the wall-clock
throttle field `_progressupdate` plays no role in the facts proved here
and is not modelled). -/
structure IndentState where
  pfx : String
  context : List String
  printed : Nat
  logfile : String
  progressfile : List ProgressEntry
deriving DecidableEq

/-- Embeds `IndentLog._print`: appends the line and a newline to
`log.html`. -/
def IndentLog_print (st : IndentState) (line : String) : IndentState :=
  { st with logfile := st.logfile ++ line ++ "\n" }

/-- Embeds `IndentLog._print_progress`: `progress.json` is sought to the
start, truncated, and rewritten with the single JSON object; `tell()` on
the flushed log file is its byte size. -/
def IndentLog_print_progress (st : IndentState) (level text : Option String) :
    IndentState :=
  { st with
    progressfile := [⟨st.logfile.utf8ByteSize, st.context, text, level⟩] }

/-- One iteration of the line loop of `IndentLog._print_item`: print the
indentation, the current one-character marker and the line, then switch the
marker to the continuation marker. -/
def indentLineStep (p : IndentState × String) (line : String) :
    IndentState × String :=
  (IndentLog_print p.1 (p.1.pfx ++ p.2 ++ " " ++ line), "|")

/-- Embeds `IndentLog._print_item`: escape the text (by default), abbreviate
the level to its escaped first character, print every line of the text with
the running marker, then rewrite the progress file with the marker and text
as left by the loop. -/
def IndentLog_print_item (st : IndentState) (level text : String)
    (escape : Bool) : IndentState :=
  let text1 := if escape then htmlEscape text else text
  let r := (splitlines text1).foldl indentLineStep
      (st, htmlEscape (level.toList.take 1).asString)
  IndentLog_print_progress r.1 (some r.2) (some text1)

/-- The line loop touches only the log file: context, indentation and
progress file are unchanged, and the final marker is the initial one for an
empty line list and the continuation marker otherwise. -/
lemma indentLineStep_foldl_spec (lines : List String) :
    ∀ (st : IndentState) (lv : String),
      (lines.foldl indentLineStep (st, lv)).1.context = st.context
      ∧ (lines.foldl indentLineStep (st, lv)).1.pfx = st.pfx
      ∧ (lines.foldl indentLineStep (st, lv)).1.progressfile = st.progressfile
      ∧ (lines.foldl indentLineStep (st, lv)).2
          = (if lines = [] then lv else "|") := by
  induction lines with
  | nil => intro st lv; exact ⟨rfl, rfl, rfl, rfl⟩
  | cons l ls ih =>
      intro st lv
      simp only [List.foldl_cons]
      obtain ⟨h1, h2, h3, h4⟩ :=
        ih (IndentLog_print st (st.pfx ++ lv ++ " " ++ l)) "|"
      refine ⟨?_, ?_, ?_, ?_⟩
      · simpa [indentLineStep, IndentLog_print] using h1
      · simpa [indentLineStep, IndentLog_print] using h2
      · simpa [indentLineStep, IndentLog_print] using h3
      · simp only [indentLineStep]
        rw [h4]
        simp

/-- Counterexample to claim C9 as stated: rendering the item
`write("info", "x")` on a fresh `IndentLog` leaves a progress object whose
level field is not the item's level "info" (it is the continuation marker
left by the line loop). -/
theorem progress_level_counterexample :
    ((IndentLog_print_item ⟨"", [], 0, "", []⟩ "info" "x" true).progressfile.map
        ProgressEntry.level) ≠ [some "info"] := by
  decide

/-- Claim C9 amended: after every item rendered by `IndentLog._print_item`,
the progress file holds exactly one JSON object whose `logpos` field is the
current byte offset into the companion log file, whose `context` field is
the list of currently active context titles, whose `text` field is the
item's text as rendered (html-escaped exactly when the item is rendered
with escaping, as writes are; raw for the markup items emitted by
`IndentLog.open`), and whose `level` field is the one-character marker left
by the line loop: the escaped first character of the level when the
rendered text has no lines, else the continuation marker. -/
theorem progress_file_contents (st : IndentState) (level text : String)
    (escape : Bool) :
    (IndentLog_print_item st level text escape).progressfile
      = [{ logpos := (IndentLog_print_item st level text escape).logfile.utf8ByteSize,
           context := st.context,
           text := some (if escape then htmlEscape text else text),
           level := some (if splitlines (if escape then htmlEscape text else text) = []
                           then htmlEscape (level.toList.take 1).asString
                           else "|") }] := by
  obtain ⟨h1, h2, h3, h4⟩ :=
    indentLineStep_foldl_spec (splitlines (if escape then htmlEscape text else text)) st
      (htmlEscape (level.toList.take 1).asString)
  simp only [IndentLog_print_item, IndentLog_print_progress]
  rw [h1, h4]

/-- Embeds `RichOutputLog._mkstr('progress', None)`: the context trail
joined by the middle-dot separator, wrapped in the clear-line and dim color
codes (the `cmap` lookup for the pseudo-level `progress` always takes the
`KeyError` branch, and the slice past the full length is empty). -/
def RichOutputLog_mkstr_progress (ctx : List String) : String :=
  "\x1b[K\x1b[1;30m" ++ String.intercalate " · " ctx ++ "\x1b[0m"

/-- Embeds `RichOutputLog._push_context`: append the title to
`self._context`, then return without printing when `parallel.procid` is
truthy; otherwise repaint the ephemeral progress line (terminated by a
carriage return, not shown) unless `mayskip` holds and the wall clock `t`
has not reached the scheduled update `pupdate`, in which case reschedule to
`t` plus the configured interval `pint`.  Wall-clock instants are
abstracted as naturals.  The result is the new context list, the new
`self._progressupdate`, and the printed progress line, if any. -/
def RichOutputLog_push_context (procid : Option Nat) (t pint : Nat)
    (ctx : List String) (pupdate : Nat) (title : String) (mayskip : Bool) :
    (List String × Nat) × Option String :=
  let ctx1 := ctx ++ [title]
  if truthy procid then ((ctx1, pupdate), none)
  else if mayskip = false ∨ pupdate ≤ t then
    ((ctx1, t + pint), some (RichOutputLog_mkstr_progress ctx1))
  else ((ctx1, pupdate), none)

/-- Embeds `IndentLog._push_context`: append the title to `self._context`
via the inherited `_push_context`, then return when `parallel.procid` is
truthy or while the wall clock `t` has not reached the scheduled update
`pupdate`; otherwise rewrite the progress file with null text and level and
reschedule.  The result is the new sink state and the new
`self._progressupdate`. -/
def IndentLog_push_context (procid : Option Nat) (t pint : Nat)
    (st : IndentState) (pupdate : Nat) (title : String) : IndentState × Nat :=
  let st1 := { st with context := st.context ++ [title] }
  if truthy procid then (st1, pupdate)
  else if t < pupdate then (st1, pupdate)
  else (IndentLog_print_progress st1 none none, t + pint)

/-- Claim C7 amended: on a non-primary (nonzero) worker rank every push is
silent on every sink — tree-style pushes only grow the in-memory stack and
render nothing, the rich console skips its progress-line repaint, the
indented sink skips its progress-file write, and the record sink buffers
nothing for a push — and tree-style sink writes emit nothing and leave the
state unchanged and are not buffered by the record sink; but the plain
console sink (`StdoutLog.write`, inherited by `RichOutputLog`) still
prints any write that passes the verbosity gate, prefixed with the
bracketed rank. -/
theorem nonprimary_suppression (k : Nat) (hk : k ≠ 0) (s : TreeState)
    (r : RecState) (ist : IndentState) (verbose t pint pupdate : Nat)
    (ctx : List String) (lvl txt title : String) (mayskip : Bool)
    (hlvl : lvl ∉ LEVELS.drop verbose) :
    treeStep (some k) s (.push title)
        = ({ s with context := s.context ++ [title] }, [])
    ∧ (RichOutputLog_push_context (some k) t pint ctx pupdate title mayskip).2 = none
    ∧ (IndentLog_push_context (some k) t pint ist pupdate title).1.progressfile
        = ist.progressfile
    ∧ (IndentLog_push_context (some k) t pint ist pupdate title).1.logfile
        = ist.logfile
    ∧ (recStep (some k) r (.push title)).messages = r.messages
    ∧ treeStep (some k) s (.write lvl txt) = (s, [])
    ∧ recStep (some k) r (.write lvl txt) = r
    ∧ StdoutLog_write verbose (some k) ctx lvl txt
        = some (String.intercalate " > "
            (ctx ++ ["[" ++ Nat.repr k ++ "] " ++ txt])) := by
  have ht : truthy (some k) = true := by
    simp [truthy, hk]
  refine ⟨rfl, ?_, ?_, ?_, rfl, ?_, ?_, ?_⟩
  · simp [RichOutputLog_push_context, ht]
  · simp [IndentLog_push_context, ht]
  · simp [IndentLog_push_context, ht]
  · simp [treeStep, ht]
  · simp [recStep, ht]
  · simp [StdoutLog_write, hlvl]

/-- Witness for the amended C7: rank 1, verbosity 4, a push of "A" and an
info write on each sink kind. -/
theorem nonprimary_suppression_witness :
    ((1 : Nat) ≠ 0 ∧ "info" ∉ LEVELS.drop 4)
    ∧ (treeStep (some 1) initTree (.push "A") = (⟨["A"], 0⟩, [])
       ∧ (RichOutputLog_push_context (some 1) 0 1 [] 0 "A" false).2 = none
       ∧ (IndentLog_push_context (some 1) 0 1 ⟨"", [], 0, "", []⟩ 0 "A").1.progressfile
           = []
       ∧ (IndentLog_push_context (some 1) 0 1 ⟨"", [], 0, "", []⟩ 0 "A").1.logfile
           = ""
       ∧ (recStep (some 1) initRec (.push "A")).messages = []
       ∧ treeStep (some 1) initTree (.write "info" "x") = (initTree, [])
       ∧ recStep (some 1) initRec (.write "info" "x") = initRec
       ∧ StdoutLog_write 4 (some 1) [] "info" "x"
           = some (String.intercalate " > " ([] ++ ["[" ++ Nat.repr 1 ++ "] " ++ "x"]))) :=
  ⟨⟨by decide, by decide⟩,
   nonprimary_suppression 1 (by decide) initTree initRec ⟨"", [], 0, "", []⟩ 4 0 1 0
     [] "info" "x" "A" false (by decide)⟩

end NutilsLog
